import Mathlib

/-!
Shallow embedding of the `IzNetwork` spiking-network engine of
`Dynamical_Complexity.py` (class `IzNetwork`, lines 20-189).

Real-valued quantities are modelled by `ℚ` (exact arithmetic in place of
IEEE doubles).  The engine state is parametrised by the neuron count `n`
and the constructor argument `dm` (the maximum delay `Dmax`); the
cylindrical accumulator `X` has `Dmax + 1` rows, matching
`self._Dmax = Dmax + 1` and `self._X = np.zeros((Dmax + 1, N))`.

The vectorised numpy operations of `update()` act independently on each
neuron, so the Euler sub-step is written as a scalar function
(`eulerCell`) that the vectorised step (`eulerVec`) applies pointwise.

A second, untyped layer (`IzNetworkObj`, `IzNetworkNew`, `setDelays`)
models the Python object together with the configuration-time validation
of `__init__` and `setDelays`, where array shapes and dtypes matter.
-/

/-- Euler step size: the source sets `self._dt = 0.1` in `__init__`. -/
def dt : ℚ := 1 / 10

/-- Number of Euler sub-steps per millisecond: `range(int(1/self._dt))`
iterates 10 times (in IEEE arithmetic `1/0.1` is exactly `10.0`). -/
def numSubsteps : ℕ := 10

/-- Static configuration: Izhikevich parameters `a b c d` (vectors of
length N, `setParameters`), the weight matrix `W` (`setWeights`) and the
delay matrix `D` (`setDelays`); `W i j`/`D i j` is the connection from
neuron `i` to neuron `j`, as in the source. -/
structure IzParams (n : ℕ) where
  a : Fin n → ℚ
  b : Fin n → ℚ
  c : Fin n → ℚ
  d : Fin n → ℚ
  W : Fin n → Fin n → ℚ
  D : Fin n → Fin n → ℕ

/-- Engine state: accumulator `X` (`self._X`, `Dmax+1` rows of length N),
pending external current `Iext` (`self._I`), the cursor, the
fired-last-step mask (`self._lastFired`) and the neuron state `v`, `u`. -/
structure IzState (n dm : ℕ) where
  X : Fin (dm + 1) → Fin n → ℚ
  Iext : Fin n → ℚ
  cursor : ℕ
  lastFired : Fin n → Bool
  v : Fin n → ℚ
  u : Fin n → ℚ

/-- One Euler sub-step for a single neuron (lines 160-166 of the source,
specialised to one component of the numpy vectors).  The state is the
triple `(v, u, fired-this-millisecond)`.  A neuron already marked fired
is left untouched (`notFired` indexing); otherwise
`v += dt*(0.04 v^2 + 5 v + 140 - u + I)` and `u += dt*(a*(b*v - u))`
(both right-hand sides read the values from before the sub-step), and
the fired flag is or-ed with the test `v > 30` on the new `v`. -/
def eulerCell (a b I : ℚ) (cs : ℚ × ℚ × Bool) : ℚ × ℚ × Bool :=
  if cs.2.2 = true then cs
  else
    let v2 := cs.1 + dt * (4/100 * cs.1 * cs.1 + 5 * cs.1 + 140 - cs.2.1 + I)
    let u2 := cs.2.1 + dt * (a * (b * cs.1 - cs.2.1))
    (v2, u2, cs.2.2 || decide (30 < v2))

/-- The `(v, u, fired)` components of neuron `i` in a vectorised triple. -/
def cellOf {n : ℕ} (tr : (Fin n → ℚ) × (Fin n → ℚ) × (Fin n → Bool)) (i : Fin n) :
    ℚ × ℚ × Bool :=
  (tr.1 i, tr.2.1 i, tr.2.2 i)

/-- The vectorised Euler sub-step: `eulerCell` applied to every neuron. -/
def eulerVec {n : ℕ} (p : IzParams n) (I : Fin n → ℚ)
    (tr : (Fin n → ℚ) × (Fin n → ℚ) × (Fin n → Bool)) :
    (Fin n → ℚ) × (Fin n → ℚ) × (Fin n → Bool) :=
  (fun i => (eulerCell (p.a i) (p.b i) (I i) (cellOf tr i)).1,
   fun i => (eulerCell (p.a i) (p.b i) (I i) (cellOf tr i)).2.1,
   fun i => (eulerCell (p.a i) (p.b i) (I i) (cellOf tr i)).2.2)

/-- `k` iterations of the vectorised Euler sub-step (the
`for _ in range(int(1/self._dt))` loop, lines 160-166). -/
def eulerIter {n : ℕ} (p : IzParams n) (I : Fin n → ℚ) :
    ℕ → (Fin n → ℚ) × (Fin n → ℚ) × (Fin n → Bool) →
    (Fin n → ℚ) × (Fin n → ℚ) × (Fin n → Bool)
  | 0, tr => tr
  | k + 1, tr => eulerVec p I (eulerIter p I k tr)

/-- `k` iterations of the scalar Euler sub-step. -/
def eulerCellIter (a b I : ℚ) : ℕ → ℚ × ℚ × Bool → ℚ × ℚ × Bool
  | 0, cs => cs
  | k + 1, cs => eulerCell a b I (eulerCellIter a b I k cs)

/-- Membrane potentials after the delayed reset
`self.v[self._lastFired] = self._c[self._lastFired]` (line 150). -/
def preV {n dm : ℕ} (p : IzParams n) (s : IzState n dm) : Fin n → ℚ :=
  fun i => if s.lastFired i then p.c i else s.v i

/-- Recovery variables after the delayed reset
`self.u[self._lastFired] += self._d[self._lastFired]` (line 151). -/
def preU {n dm : ℕ} (p : IzParams n) (s : IzState n dm) : Fin n → ℚ :=
  fun i => if s.lastFired i then s.u i + p.d i else s.u i

/-- The accumulator row index `cursor % (Dmax+1)`. -/
def cursorSlot (dm c : ℕ) : Fin (dm + 1) :=
  ⟨c % (dm + 1), Nat.mod_lt c (Nat.succ_pos dm)⟩

/-- Total input current for this step:
`I = self._I + self._X[self._cursor % self._Dmax, :]` (line 154). -/
def totalI {n dm : ℕ} (s : IzState n dm) : Fin n → ℚ :=
  fun j => s.Iext j + s.X (cursorSlot dm s.cursor) j

/-- The `(v, u, fired)` vectors after `k` Euler sub-steps of one
`update()` call, starting from the reset state with all fired flags
false (line 159). -/
def eulerStage {n dm : ℕ} (p : IzParams n) (s : IzState n dm) (k : ℕ) :
    (Fin n → ℚ) × (Fin n → ℚ) × (Fin n → Bool) :=
  eulerIter p (totalI s) k (preV p s, preU p s, fun _ => false)

/-- The fired mask produced by one `update()` call (line 166, after all
sub-steps). -/
def firedMask {n dm : ℕ} (p : IzParams n) (s : IzState n dm) : Fin n → Bool :=
  (eulerStage p s numSubsteps).2.2

/-- The ascending list of indices at which a mask is true
(`np.where(fired)[0]`, line 171). -/
def firedList {n : ℕ} (F : Fin n → Bool) : List (Fin n) :=
  (List.finRange n).filter (fun f => F f)

/-- The accumulator write of one firing source neuron `f`:
`self._X[(self._cursor + self._D[f, :]) % self._Dmax, range(self._N)] += self._W[f, :]`
(line 183): for every target `col`, add `W f col` to the row
`(cursor + D f col) % (Dmax+1)` of column `col`. -/
def scatterOne {n dm : ℕ} (p : IzParams n) (c : ℕ)
    (X : Fin (dm + 1) → Fin n → ℚ) (f : Fin n) : Fin (dm + 1) → Fin n → ℚ :=
  fun slot col =>
    if (c + p.D f col) % (dm + 1) = slot.val then X slot col + p.W f col
    else X slot col

/-- The scatter loop `for i in fired_idx: ...` (lines 182-183). -/
def scatterAll {n dm : ℕ} (p : IzParams n) (c : ℕ) (F : Fin n → Bool)
    (X : Fin (dm + 1) → Fin n → ℚ) : Fin (dm + 1) → Fin n → ℚ :=
  (firedList F).foldl (scatterOne p c) X

/-- One `update()` call (lines 140-189): delayed reset, input read,
Euler sub-steps, clamp of fired neurons to 30, clearing of the pending
current, delayed scatter, clearing of the consumed accumulator row
(line 186: `self._X[self._cursor % self._Dmax, :] = np.zeros(...)`) and
cursor increment.  Returns the new state and the fired mask (the source
returns `fired_idx = np.where(fired)[0]`; see `updateFiredIdx`). -/
def update {n dm : ℕ} (p : IzParams n) (s : IzState n dm) :
    IzState n dm × (Fin n → Bool) :=
  ({ X := fun slot col =>
        if slot.val = s.cursor % (dm + 1) then 0
        else scatterAll p s.cursor (firedMask p s) s.X slot col,
     Iext := fun _ => 0,
     cursor := s.cursor + 1,
     lastFired := firedMask p s,
     v := fun i => if firedMask p s i then 30 else (eulerStage p s numSubsteps).1 i,
     u := (eulerStage p s numSubsteps).2.1 },
   firedMask p s)

/-- The list of fired indices returned by `update()`. -/
def updateFiredIdx {n dm : ℕ} (p : IzParams n) (s : IzState n dm) : List (Fin n) :=
  firedList (update p s).2

/-- `setCurrent`: replace the pending external current. -/
def setI {n dm : ℕ} (s : IzState n dm) (I : Fin n → ℚ) : IzState n dm :=
  { s with Iext := I }

/-- Driving the engine: before step `t` the driver stores the external
current `Iseq t` (`setCurrent`) and then calls `update()`.
`runState p Iseq s t` is the state after `t` such steps. -/
def runState {n dm : ℕ} (p : IzParams n) (Iseq : ℕ → Fin n → ℚ)
    (s : IzState n dm) : ℕ → IzState n dm
  | 0 => s
  | t + 1 => (update p (setI (runState p Iseq s t) (Iseq t))).1

/-- The fired mask produced by the `update()` call of step `t`. -/
def runFired {n dm : ℕ} (p : IzParams n) (Iseq : ℕ → Fin n → ℚ)
    (s : IzState n dm) (t : ℕ) : Fin n → Bool :=
  (update p (setI (runState p Iseq s t) (Iseq t))).2

/-- The synaptic (accumulator) contribution a state delivers to each
neuron when `update()` reads it: `self._X[self._cursor % self._Dmax, :]`. -/
def bufRead {n dm : ℕ} (s : IzState n dm) : Fin n → ℚ :=
  fun j => s.X (cursorSlot dm s.cursor) j

/-- The total input current `I` computed by the `update()` call of step
`t` of a driven run (external plus accumulator, line 154). -/
def stepInput {n dm : ℕ} (p : IzParams n) (Iseq : ℕ → Fin n → ℚ)
    (s : IzState n dm) (t : ℕ) : Fin n → ℚ :=
  totalI (setI (runState p Iseq s t) (Iseq t))

/-- The freshly constructed state (`__init__`, lines 57-65): zero
accumulator and current, cursor 0, nothing fired, `v = -65`, `u = -1`. -/
def initState (n dm : ℕ) : IzState n dm :=
  { X := fun _ _ => 0, Iext := fun _ => 0, cursor := 0,
    lastFired := fun _ => false, v := fun _ => -65, u := fun _ => -1 }

/-- A numpy array passed to `setDelays`: its entries (row major) and the
dtype-level fact `np.issubdtype(D.dtype, np.integer)` (a property of the
array as a whole, not of individual entries). -/
structure NpMatrix where
  data : List (List ℚ)
  dtypeIsInt : Bool

/-- The Python `IzNetwork` object with the attributes set by `__init__`;
`D`, `W` and the parameter vectors are absent until the corresponding
setter has run. -/
structure IzNetworkObj where
  DmaxP : ℕ
  N : ℕ
  X : List (List ℚ)
  I : List ℚ
  cursor : ℕ
  lastFired : List Bool
  dtAttr : ℚ
  v : List ℚ
  u : List ℚ
  D : Option NpMatrix
  W : Option (List (List ℚ))
  abcd : Option ((List ℚ) × (List ℚ) × (List ℚ) × (List ℚ))

/-- `IzNetwork(N, Dmax)` (`__init__`, lines 46-65).  The constructor
performs no validation, so it never raises; the `Except` wrapper records
where the Python code could raise (nowhere). -/
def IzNetworkNew (N Dmax : ℕ) : Except String IzNetworkObj :=
  .ok { DmaxP := Dmax + 1, N := N,
        X := List.replicate (Dmax + 1) (List.replicate N 0),
        I := List.replicate N 0, cursor := 0,
        lastFired := List.replicate N false, dtAttr := 1/10,
        v := List.replicate N (-65), u := List.replicate N (-1),
        D := none, W := none, abcd := none }

/-- `D.shape == (N, N)` for the row-major entry list of a 2-d array. -/
def matShapeOk (M : NpMatrix) (n : ℕ) : Bool :=
  M.data.length == n && M.data.all (fun row => row.length == n)

/-- `setDelays` (lines 68-86): raise unless the matrix is N-by-N
(line 77), of integer dtype (line 80) and nowhere `< 0.5` (line 83);
otherwise store it as `self._D`.  Note there is no comparison against
`Dmax` anywhere. -/
def setDelays (s : IzNetworkObj) (Dm : NpMatrix) : Except String IzNetworkObj :=
  if ¬ (matShapeOk Dm s.N = true) then .error "Delay matrix must be N-by-N."
  else if Dm.dtypeIsInt = false then .error "Delays must be integer numbers."
  else if Dm.data.any (fun row => row.any (fun x => decide (x < 1/2))) then
    .error "Delays must be strictly positive."
  else .ok { s with D := some Dm }

lemma cellOf_eulerVec {n : ℕ} (p : IzParams n) (I : Fin n → ℚ)
    (tr : (Fin n → ℚ) × (Fin n → ℚ) × (Fin n → Bool)) (i : Fin n) :
    cellOf (eulerVec p I tr) i = eulerCell (p.a i) (p.b i) (I i) (cellOf tr i) := rfl

lemma cellOf_eulerIter {n : ℕ} (p : IzParams n) (I : Fin n → ℚ)
    (tr : (Fin n → ℚ) × (Fin n → ℚ) × (Fin n → Bool)) (i : Fin n) :
    ∀ k, cellOf (eulerIter p I k tr) i = eulerCellIter (p.a i) (p.b i) (I i) k (cellOf tr i)
  | 0 => rfl
  | k + 1 => by
      rw [eulerIter, eulerCellIter, cellOf_eulerVec, cellOf_eulerIter p I tr i k]

lemma cellOf_eulerStage {n dm : ℕ} (p : IzParams n) (s : IzState n dm) (i : Fin n)
    (k : ℕ) :
    cellOf (eulerStage p s k) i
      = eulerCellIter (p.a i) (p.b i) (totalI s i) k (preV p s i, preU p s i, false) := by
  rw [eulerStage, cellOf_eulerIter]; rfl

lemma eulerCell_frozen (a b I : ℚ) (cs : ℚ × ℚ × Bool) (h : cs.2.2 = true) :
    eulerCell a b I cs = cs := by
  rw [eulerCell, if_pos h]

lemma eulerCellIter_fix (a b I : ℚ) (cs : ℚ × ℚ × Bool)
    (h : eulerCell a b I cs = cs) : ∀ k, eulerCellIter a b I k cs = cs
  | 0 => rfl
  | k + 1 => by rw [eulerCellIter, eulerCellIter_fix a b I cs h k, h]

lemma eulerCellIter_frozen (a b I : ℚ) (cs : ℚ × ℚ × Bool) (h : cs.2.2 = true)
    (k : ℕ) : eulerCellIter a b I k cs = cs :=
  eulerCellIter_fix a b I cs (eulerCell_frozen a b I cs h) k

lemma eulerCell_fired_of_gt (a b I : ℚ) (cs : ℚ × ℚ × Bool)
    (h : 30 < (eulerCell a b I cs).1) : (eulerCell a b I cs).2.2 = true := by
  by_cases hf : cs.2.2 = true
  · rw [eulerCell_frozen a b I cs hf]; exact hf
  · rw [eulerCell, if_neg hf] at h ⊢
    simp only [Bool.or_eq_true, decide_eq_true_eq]
    exact Or.inr h

lemma eulerStage_zero_fired {n dm : ℕ} (p : IzParams n) (s : IzState n dm)
    (i : Fin n) : (eulerStage p s 0).2.2 i = false := rfl

lemma eulerStage_succ_cell {n dm : ℕ} (p : IzParams n) (s : IzState n dm)
    (i : Fin n) (k : ℕ) :
    cellOf (eulerStage p s (k + 1)) i
      = eulerCell (p.a i) (p.b i) (totalI s i) (cellOf (eulerStage p s k) i) := rfl

lemma eulerStage_freeze {n dm : ℕ} (p : IzParams n) (s : IzState n dm) (i : Fin n)
    (k₁ : ℕ) (hf : (eulerStage p s k₁).2.2 i = true) :
    ∀ k₂, k₁ ≤ k₂ → cellOf (eulerStage p s k₂) i = cellOf (eulerStage p s k₁) i := by
  intro k₂
  induction k₂ with
  | zero => intro h; rw [Nat.le_zero.mp h]
  | succ k₂ ih =>
      intro h
      rcases Nat.lt_or_ge k₁ (k₂ + 1) with h1 | h2
      · have hk : k₁ ≤ k₂ := Nat.lt_succ_iff.mp h1
        have hcell := ih hk
        rw [eulerStage_succ_cell, hcell]
        apply eulerCell_frozen
        have : (cellOf (eulerStage p s k₁) i).2.2 = (eulerStage p s k₁).2.2 i := rfl
        rw [this]; exact hf
      · have : k₁ = k₂ + 1 := Nat.le_antisymm h h2
        rw [this]

lemma eulerStage_mask_or {n dm : ℕ} (p : IzParams n) (s : IzState n dm) (i : Fin n)
    (k : ℕ) :
    (eulerStage p s (k + 1)).2.2 i
      = ((eulerStage p s k).2.2 i || decide (30 < (eulerStage p s (k + 1)).1 i)) := by
  have h1 : (eulerStage p s (k + 1)).2.2 i = (cellOf (eulerStage p s (k + 1)) i).2.2 := rfl
  have h2 : (eulerStage p s (k + 1)).1 i = (cellOf (eulerStage p s (k + 1)) i).1 := rfl
  rw [h1, h2, eulerStage_succ_cell]
  set cs := cellOf (eulerStage p s k) i with hcs
  have hkk : (eulerStage p s k).2.2 i = cs.2.2 := rfl
  rw [hkk, eulerCell]
  by_cases hf : cs.2.2 = true
  · rw [if_pos hf, hf]
    simp only [Bool.true_or]
  · rw [if_neg hf]

lemma eulerStage_mask_iff {n dm : ℕ} (p : IzParams n) (s : IzState n dm) (i : Fin n) :
    ∀ k, ((eulerStage p s k).2.2 i = true
      ↔ ∃ m, 1 ≤ m ∧ m ≤ k ∧ 30 < (eulerStage p s m).1 i) := by
  intro k
  induction k with
  | zero =>
      rw [eulerStage_zero_fired]
      constructor
      · intro h; exact absurd h (by simp)
      · rintro ⟨m, h1, h2, _⟩; omega
  | succ k ih =>
      rw [eulerStage_mask_or, Bool.or_eq_true, decide_eq_true_eq, ih]
      constructor
      · rintro (⟨m, h1, h2, h3⟩ | h)
        · exact ⟨m, h1, Nat.le_succ_of_le h2, h3⟩
        · exact ⟨k + 1, Nat.succ_le_succ (Nat.zero_le k), Nat.le_refl _, h⟩
      · rintro ⟨m, h1, h2, h3⟩
        rcases Nat.lt_or_ge m (k + 1) with hm | hm
        · exact Or.inl ⟨m, h1, Nat.lt_succ_iff.mp hm, h3⟩
        · have : m = k + 1 := Nat.le_antisymm h2 hm
          rw [this] at h3
          exact Or.inr h3

lemma mem_firedList {n : ℕ} (F : Fin n → Bool) (i : Fin n) :
    i ∈ firedList F ↔ F i = true := by
  rw [firedList, List.mem_filter]
  simp [List.mem_finRange]

lemma nodup_firedList {n : ℕ} (F : Fin n → Bool) : (firedList F).Nodup :=
  (List.nodup_finRange n).filter _

lemma foldl_scatterOne_col {n dm : ℕ} (p : IzParams n) (c : ℕ) (col : Fin n) :
    ∀ (L : List (Fin n)) (X : Fin (dm + 1) → Fin n → ℚ) (slot : Fin (dm + 1)),
      (L.foldl (scatterOne p c) X) slot col
        = X slot col
          + (L.map (fun f =>
              if (c + p.D f col) % (dm + 1) = slot.val then p.W f col else 0)).sum := by
  intro L
  induction L with
  | nil => intro X slot; simp
  | cons f L ih =>
      intro X slot
      rw [List.foldl_cons, ih, List.map_cons, List.sum_cons]
      have hone : scatterOne p c X f slot col
          = X slot col + (if (c + p.D f col) % (dm + 1) = slot.val then p.W f col else 0) := by
        rw [scatterOne]
        by_cases h : (c + p.D f col) % (dm + 1) = slot.val
        · rw [if_pos h, if_pos h]
        · rw [if_neg h, if_neg h, add_zero]
      rw [hone, add_assoc]

lemma map_sum_single {n : ℕ} (i : Fin n) (g : Fin n → ℚ)
    (hg : ∀ f, f ≠ i → g f = 0) :
    ∀ L : List (Fin n), L.Nodup → (L.map g).sum = if i ∈ L then g i else 0 := by
  intro L
  induction L with
  | nil => intro _; simp
  | cons f L ih =>
      intro hnd
      rw [List.map_cons, List.sum_cons, ih hnd.of_cons]
      by_cases hfi : f = i
      · subst hfi
        have hni : f ∉ L := (List.nodup_cons.mp hnd).1
        rw [if_neg hni, if_pos (List.mem_cons_self f L), add_zero]
      · rw [hg f hfi, zero_add]
        by_cases hiL : i ∈ L
        · rw [if_pos hiL, if_pos (List.mem_cons_of_mem f hiL)]
        · rw [if_neg hiL, if_neg (by simp [hfi, hiL, List.mem_cons, Ne.symm])]

lemma scatterAll_col {n dm : ℕ} (p : IzParams n) (c : ℕ) (F : Fin n → Bool)
    (X : Fin (dm + 1) → Fin n → ℚ) (i col : Fin n)
    (hW0 : ∀ f, f ≠ i → p.W f col = 0) (slot : Fin (dm + 1)) :
    scatterAll p c F X slot col
      = X slot col
        + (if F i = true ∧ (c + p.D i col) % (dm + 1) = slot.val then p.W i col else 0) := by
  rw [scatterAll, foldl_scatterOne_col]
  congr 1
  rw [map_sum_single i _ (fun f hf => by rw [hW0 f hf]; exact ite_self 0)
      (firedList F) (nodup_firedList F)]
  by_cases hFi : F i = true
  · rw [if_pos ((mem_firedList F i).mpr hFi)]
    by_cases hc : (c + p.D i col) % (dm + 1) = slot.val
    · rw [if_pos hc, if_pos ⟨hFi, hc⟩]
    · rw [if_neg hc, if_neg (fun h => hc h.2)]
  · rw [if_neg (fun h => hFi ((mem_firedList F i).mp h)), if_neg (fun h => hFi h.1)]

lemma scatterAll_col_zero {n dm : ℕ} (p : IzParams n) (c : ℕ) (F : Fin n → Bool)
    (X : Fin (dm + 1) → Fin n → ℚ) (col : Fin n)
    (hW0 : ∀ f, p.W f col = 0) (slot : Fin (dm + 1)) :
    scatterAll p c F X slot col = X slot col := by
  rw [scatterAll, foldl_scatterOne_col]
  have : ∀ f : Fin n,
      (if (c + p.D f col) % (dm + 1) = slot.val then p.W f col else 0) = 0 := by
    intro f; rw [hW0 f]; exact ite_self 0
  rw [List.map_congr_left (fun f _ => this f)]
  simp

lemma update_X {n dm : ℕ} (p : IzParams n) (s : IzState n dm)
    (slot : Fin (dm + 1)) (col : Fin n) :
    (update p s).1.X slot col
      = if slot.val = s.cursor % (dm + 1) then 0
        else scatterAll p s.cursor (firedMask p s) s.X slot col := rfl

lemma update_cursor {n dm : ℕ} (p : IzParams n) (s : IzState n dm) :
    (update p s).1.cursor = s.cursor + 1 := rfl

lemma update_fired {n dm : ℕ} (p : IzParams n) (s : IzState n dm) :
    (update p s).2 = firedMask p s := rfl

lemma runState_cursor {n dm : ℕ} (p : IzParams n) (Iseq : ℕ → Fin n → ℚ)
    (s : IzState n dm) : ∀ t, (runState p Iseq s t).cursor = s.cursor + t
  | 0 => rfl
  | t + 1 => by
      rw [runState, update_cursor]
      have : (setI (runState p Iseq s t) (Iseq t)).cursor = (runState p Iseq s t).cursor := rfl
      rw [this, runState_cursor p Iseq s t]
      exact Nat.add_assoc s.cursor t 1

lemma modAddEqSelfIff (x r m : ℕ) (hx : x < m) (hr : r < m) :
    ((x + r) % m = x ↔ r = 0) := by
  constructor
  · intro h
    rcases Nat.lt_or_ge (x + r) m with hlt | hge
    · rw [Nat.mod_eq_of_lt hlt] at h; omega
    · rw [Nat.mod_eq_sub_mod hge, Nat.mod_eq_of_lt (by omega)] at h; omega
  · intro h
    rw [h, Nat.add_zero, Nat.mod_eq_of_lt hx]

lemma modAddCancelIff (x s r m : ℕ) (hs : s < m) (hr : r < m) :
    ((x + s) % m = (x + r) % m ↔ s = r) := by
  constructor
  · intro h
    have h2 : x + s ≡ x + r [MOD m] := h
    have h3 : s ≡ r [MOD m] := Nat.ModEq.add_left_cancel' x h2
    have h4 : s % m = r % m := h3
    rw [Nat.mod_eq_of_lt hs, Nat.mod_eq_of_lt hr] at h4
    exact h4
  · intro h; rw [h]

lemma modShiftEqIff (e r m : ℕ) (hm : 0 < m) :
    ((e + r) % m = e % m ↔ r % m = 0) := by
  rw [Nat.add_mod]
  exact modAddEqSelfIff (e % m) (r % m) m (Nat.mod_lt e hm) (Nat.mod_lt r hm)

lemma modShiftInjIff (e s r m : ℕ) (hs : s < m) :
    ((e + s) % m = (e + r) % m ↔ s = r % m) := by
  have hm : 0 < m := Nat.lt_of_le_of_lt (Nat.zero_le s) hs
  rw [Nat.add_mod e s, Nat.add_mod e r,
      modAddCancelIff (e % m) (s % m) (r % m) m (Nat.mod_lt s hm) (Nat.mod_lt r hm),
      Nat.mod_eq_of_lt hs]

/-- Column invariant of the cylindrical accumulator on a driven run with
a single incoming connection into neuron `j` (the one from `i`, weight
`w`, delay `d`), when `i` fires exactly at step `T` among the first `M`
steps: column `j` of the accumulator is zero everywhere except that,
after step `T` and until the row is consumed at step `T + d % (Dmax+1)`,
the row `(cursor₀ + T + d) % (Dmax+1)` holds `w` - and that exception is
vacuous when `Dmax+1` divides `d`, because the scatter then hits exactly
the row cleared at the end of the same call. -/
lemma deliveryColumn {n dm : ℕ} (p : IzParams n) (Iseq : ℕ → Fin n → ℚ)
    (s₀ : IzState n dm) (i j : Fin n) (w : ℚ) (d T M : ℕ)
    (hW : p.W i j = w) (hW0 : ∀ f, f ≠ i → p.W f j = 0)
    (hD : p.D i j = d) (hX : ∀ slot, s₀.X slot j = 0)
    (hfire : ∀ t, t < M → ((runFired p Iseq s₀ t) i = true ↔ t = T))
    (hT : T < M) :
    ∀ t, t ≤ M → ∀ slot : Fin (dm + 1),
      (runState p Iseq s₀ t).X slot j
        = if T < t ∧ t ≤ T + d % (dm + 1) ∧ d % (dm + 1) ≠ 0
             ∧ slot.val = (s₀.cursor + T + d) % (dm + 1)
          then w else 0 := by
  have hdp : 0 < dm + 1 := Nat.succ_pos dm
  have hρlt : d % (dm + 1) < dm + 1 := Nat.mod_lt d hdp
  intro t
  induction t with
  | zero =>
      intro _ slot
      have h0 : runState p Iseq s₀ 0 = s₀ := rfl
      rw [h0, hX slot, if_neg (fun h => Nat.not_lt_zero T h.1)]
  | succ t ih =>
      intro hle slot
      have htM : t < M := Nat.lt_of_succ_le hle
      have hstep : runState p Iseq s₀ (t + 1)
          = (update p (setI (runState p Iseq s₀ t) (Iseq t))).1 := rfl
      rw [hstep, update_X, scatterAll_col p _ _ _ i j hW0 slot]
      have hc1 : (setI (runState p Iseq s₀ t) (Iseq t)).cursor
          = (runState p Iseq s₀ t).cursor := rfl
      have hX1 : (setI (runState p Iseq s₀ t) (Iseq t)).X = (runState p Iseq s₀ t).X := rfl
      rw [hc1, hX1, runState_cursor p Iseq s₀ t, hD, hW, ih (Nat.le_of_lt htM) slot]
      have hiff : (firedMask p (setI (runState p Iseq s₀ t) (Iseq t)) i = true) ↔ t = T := by
        have hm2 : firedMask p (setI (runState p Iseq s₀ t) (Iseq t)) i
            = runFired p Iseq s₀ t i := rfl
        rw [hm2]; exact hfire t htM
      rw [if_congr (and_congr_left' hiff) rfl rfl]
      by_cases hT' : t = T
      · have hSCS : (s₀.cursor + t + d) % (dm + 1) = (s₀.cursor + T + d) % (dm + 1) := by
          rw [hT']
        by_cases hρ0 : d % (dm + 1) = 0
        · have hCLS : (s₀.cursor + t) % (dm + 1) = (s₀.cursor + T + d) % (dm + 1) := by
            rw [hT']
            exact ((modShiftEqIff (s₀.cursor + T) d (dm + 1) hdp).mpr hρ0).symm
          split_ifs <;> first | rfl | ring1 | (exfalso; omega)
        · have hCLS : (s₀.cursor + t) % (dm + 1) ≠ (s₀.cursor + T + d) % (dm + 1) := by
            rw [hT']
            intro h
            exact hρ0 ((modShiftEqIff (s₀.cursor + T) d (dm + 1) hdp).mp h.symm)
          split_ifs <;> first | rfl | ring1 | (exfalso; omega)
      · rcases Nat.lt_or_ge t T with htT | hTle
        · split_ifs <;> first | rfl | ring1 | (exfalso; omega)
        · have hTt : T < t := by omega
          by_cases hρ0 : d % (dm + 1) = 0
          · split_ifs <;> first | rfl | ring1 | (exfalso; omega)
          · by_cases hwin : t ≤ T + d % (dm + 1)
            · have hq : ((s₀.cursor + t) % (dm + 1) = (s₀.cursor + T + d) % (dm + 1))
                  ↔ t - T = d % (dm + 1) := by
                have hrw2 : s₀.cursor + t = (s₀.cursor + T) + (t - T) := by omega
                rw [hrw2]
                exact modShiftInjIff (s₀.cursor + T) (t - T) d (dm + 1) (by omega)
              by_cases ht2 : t = T + d % (dm + 1)
              · have hclS : (s₀.cursor + t) % (dm + 1) = (s₀.cursor + T + d) % (dm + 1) :=
                  hq.mpr (by omega)
                split_ifs <;> first | rfl | ring1 | (exfalso; omega)
              · have hclNe : (s₀.cursor + t) % (dm + 1) ≠ (s₀.cursor + T + d) % (dm + 1) :=
                  fun h => ht2 (by have h2 := hq.mp h; omega)
                split_ifs <;> first | rfl | ring1 | (exfalso; omega)
            · split_ifs <;> first | rfl | ring1 | (exfalso; omega)

lemma bufRead_def {n dm : ℕ} (s : IzState n dm) (j : Fin n) :
    bufRead s j = s.X (cursorSlot dm s.cursor) j := rfl

lemma stepInput_def {n dm : ℕ} (p : IzParams n) (Iseq : ℕ → Fin n → ℚ)
    (s : IzState n dm) (t : ℕ) (j : Fin n) :
    stepInput p Iseq s t j = Iseq t j + bufRead (runState p Iseq s t) j := rfl

/-- The accumulator contribution that a driven run delivers to neuron
`j` at each step, when `j`'s only incoming connection is the one from
`i` (weight `w`, delay `d`) and `i` fires exactly at step `T`: the
weight arrives exactly at step `T + d % (Dmax+1)` - which is the
intended step `T + d` iff `d ≤ Dmax` - and nothing arrives at any
other step; when `Dmax+1` divides `d` nothing ever arrives at all. -/
lemma deliveryRead {n dm : ℕ} (p : IzParams n) (Iseq : ℕ → Fin n → ℚ)
    (s₀ : IzState n dm) (i j : Fin n) (w : ℚ) (d T M : ℕ)
    (hW : p.W i j = w) (hW0 : ∀ f, f ≠ i → p.W f j = 0)
    (hD : p.D i j = d) (hX : ∀ slot, s₀.X slot j = 0)
    (hfire : ∀ t, t < M → ((runFired p Iseq s₀ t) i = true ↔ t = T))
    (hT : T < M) :
    ∀ r, r ≤ M →
      bufRead (runState p Iseq s₀ r) j
        = if d % (dm + 1) ≠ 0 ∧ r = T + d % (dm + 1) then w else 0 := by
  intro r hr
  have hdp : 0 < dm + 1 := Nat.succ_pos dm
  have hρlt : d % (dm + 1) < dm + 1 := Nat.mod_lt d hdp
  have hcol := deliveryColumn p Iseq s₀ i j w d T M hW hW0 hD hX hfire hT r hr
      (cursorSlot dm (runState p Iseq s₀ r).cursor)
  have hslot : (cursorSlot dm (runState p Iseq s₀ r).cursor).val
      = (s₀.cursor + r) % (dm + 1) := by
    have h1 : (cursorSlot dm (runState p Iseq s₀ r).cursor).val
        = (runState p Iseq s₀ r).cursor % (dm + 1) := rfl
    rw [h1, runState_cursor]
  rw [bufRead_def, hcol, hslot]
  by_cases h1 : d % (dm + 1) = 0
  · rw [if_neg (fun h => h.2.2.1 h1), if_neg (fun h => h.1 h1)]
  · by_cases h2 : r = T + d % (dm + 1)
    · have hkey : (s₀.cursor + r) % (dm + 1) = (s₀.cursor + T + d) % (dm + 1) := by
        have hrw2 : s₀.cursor + r = (s₀.cursor + T) + (r - T) := by omega
        rw [hrw2]
        exact (modShiftInjIff (s₀.cursor + T) (r - T) d (dm + 1) (by omega)).mpr (by omega)
      rw [if_pos ⟨by omega, by omega, h1, hkey⟩, if_pos ⟨h1, h2⟩]
    · have hA : ¬(T < r ∧ r ≤ T + d % (dm + 1) ∧ d % (dm + 1) ≠ 0
          ∧ (s₀.cursor + r) % (dm + 1) = (s₀.cursor + T + d) % (dm + 1)) := by
        rintro ⟨hTr, hwin, hρ, hsl⟩
        have hrw2 : s₀.cursor + r = (s₀.cursor + T) + (r - T) := by omega
        rw [hrw2] at hsl
        have h3 := (modShiftInjIff (s₀.cursor + T) (r - T) d (dm + 1) (by omega)).mp hsl
        omega
      rw [if_neg hA, if_neg (fun h => h2 h.2)]

/-- Claim C1 (confirmed).  Delayed delivery round-trip: in a network
whose only connection is the directed edge from `i` to `j` with weight
`w` and delay `k`, `1 ≤ k ≤ Dmax`, if neuron `i` fires exactly at the
`update()` call of step `T` of a driven run, then the total input
current computed for neuron `j` includes exactly `w` on top of the
external current at step `T + k`, and receives zero contribution from
that edge at every other step. -/
theorem delayed_delivery_roundtrip {n dm : ℕ} (p : IzParams n)
    (Iseq : ℕ → Fin n → ℚ) (s₀ : IzState n dm) (i j : Fin n) (w : ℚ)
    (k T M : ℕ)
    (hW : p.W i j = w) (hW1 : ∀ a b : Fin n, ¬(a = i ∧ b = j) → p.W a b = 0)
    (hD : p.D i j = k) (hk1 : 1 ≤ k) (hk2 : k ≤ dm)
    (hX : ∀ slot col, s₀.X slot col = 0)
    (hfire : ∀ t, t < M → ((runFired p Iseq s₀ t) i = true ↔ t = T))
    (hT : T < M) :
    ∀ r, r ≤ M →
      stepInput p Iseq s₀ r j = Iseq r j + (if r = T + k then w else 0) := by
  intro r hr
  have hk : k % (dm + 1) = k := Nat.mod_eq_of_lt (by omega)
  have hread := deliveryRead p Iseq s₀ i j w k T M hW
      (fun f hf => hW1 f j (fun hc => hf hc.1)) hD (fun slot => hX slot j) hfire hT r hr
  rw [stepInput_def, hread, hk,
      if_congr (and_iff_right (by omega : k ≠ 0)) rfl rfl]

/-- Claim C4 (confirmed).  Precise out-of-range delivery semantics: with
a single connection from `i` to `j` of weight `w` and arbitrary delay
`d`, a firing of `i` at step `T` delivers `w` to `j` at the (for
`d > Dmax` mis-timed) step `T + (d % (Dmax+1))` whenever
`d % (Dmax+1) ≠ 0`, and is silently discarded - no step ever receives
it - exactly when `Dmax+1` divides `d` (for a configured delay, which
`setDelays` forces positive, that means `d` is a positive multiple of
`Dmax+1`). -/
theorem out_of_range_delivery_semantics {n dm : ℕ} (p : IzParams n)
    (Iseq : ℕ → Fin n → ℚ) (s₀ : IzState n dm) (i j : Fin n) (w : ℚ)
    (d T M : ℕ)
    (hW : p.W i j = w) (hW1 : ∀ a b : Fin n, ¬(a = i ∧ b = j) → p.W a b = 0)
    (hD : p.D i j = d)
    (hX : ∀ slot col, s₀.X slot col = 0)
    (hfire : ∀ t, t < M → ((runFired p Iseq s₀ t) i = true ↔ t = T))
    (hT : T < M) :
    (d % (dm + 1) ≠ 0 → ∀ r, r ≤ M →
      bufRead (runState p Iseq s₀ r) j = (if r = T + d % (dm + 1) then w else 0))
    ∧ (d % (dm + 1) = 0 → ∀ r, r ≤ M → bufRead (runState p Iseq s₀ r) j = 0) := by
  have hread := deliveryRead p Iseq s₀ i j w d T M hW
      (fun f hf => hW1 f j (fun hc => hf hc.1)) hD (fun slot => hX slot j) hfire hT
  constructor
  · intro hρ r hr
    rw [hread r hr, if_congr (and_iff_right hρ) rfl rfl]
  · intro hρ r hr
    rw [hread r hr, if_neg (fun h => h.1 hρ)]

/-- Claim C3 (amended).  A connection from `i` to `j` whose delay
`d ≥ Dmax+1` is a positive multiple of `Dmax+1` never delivers its
weight to `j` at any step: the scatter writes it into exactly the
accumulator row that the same `update()` call clears.  (As stated the
original claim is false: an out-of-range delay that is not a multiple
of `Dmax+1` does deliver, at the mis-timed step `T + d % (Dmax+1)`.) -/
theorem overlong_delay_multiple_never_delivers {n dm : ℕ} (p : IzParams n)
    (Iseq : ℕ → Fin n → ℚ) (s₀ : IzState n dm) (i j : Fin n) (w : ℚ)
    (d T M : ℕ)
    (hW : p.W i j = w) (hW1 : ∀ a b : Fin n, ¬(a = i ∧ b = j) → p.W a b = 0)
    (hD : p.D i j = d) (hpos : 0 < d) (hdvd : (dm + 1) ∣ d)
    (hX : ∀ slot col, s₀.X slot col = 0)
    (hfire : ∀ t, t < M → ((runFired p Iseq s₀ t) i = true ↔ t = T))
    (hT : T < M) :
    ∀ r, r ≤ M → bufRead (runState p Iseq s₀ r) j = 0 := by
  intro r hr
  have hρ : d % (dm + 1) = 0 := by
    obtain ⟨c, rfl⟩ := hdvd
    exact Nat.mul_mod_right _ _
  have hread := deliveryRead p Iseq s₀ i j w d T M hW
      (fun f hf => hW1 f j (fun hc => hf hc.1)) hD (fun slot => hX slot j) hfire hT r hr
  rw [hread, if_neg (fun h => h.1 hρ)]

lemma eulerCellIter_eventually_fixed (a b I : ℚ) (cs cs1 : ℚ × ℚ × Bool)
    (h1 : eulerCell a b I cs = cs1) (h2 : cs1.2.2 = true) :
    ∀ k, 1 ≤ k → eulerCellIter a b I k cs = cs1 := by
  intro k hk
  induction k with
  | zero => omega
  | succ k ih =>
      rcases Nat.lt_or_ge 0 k with hk0 | hk0
      · rw [eulerCellIter, ih hk0, eulerCell_frozen a b I cs1 h2]
      · have hz : k = 0 := by omega
        rw [hz, eulerCellIter, eulerCellIter, h1]

/-- Concrete two-neuron witness network with `Dmax = 1`: a single
connection of weight 1000 from neuron 0 to neuron 1 whose delay is the
parameter `dd`; all Izhikevich parameters are degenerate (`a = b = 0`)
so that concrete runs stay at exact small rationals. -/
def pW2 (dd : ℕ) : IzParams 2 :=
  { a := fun _ => 0, b := fun _ => 0, c := fun _ => -65, d := fun _ => 0,
    W := fun i j => if i = 0 ∧ j = 1 then 1000 else 0,
    D := fun i j => if i = 0 ∧ j = 1 then dd else 1 }

/-- Witness input drive: 1015 into neuron 0 at step 0 (enough to make
it fire in the first Euler sub-step) and 15 afterwards (which holds it
exactly at the rest point `v = -65`, `u = -1`); neuron 1 always gets
15. -/
def IsW2 : ℕ → Fin 2 → ℚ :=
  fun t i => if i = 0 then (if t = 0 then 1015 else 15) else 15

lemma pW2_W_col0 (dd : ℕ) : ∀ f : Fin 2, (pW2 dd).W f 0 = 0 := by
  intro f
  exact if_neg (fun h => absurd h.2 (by decide))

lemma pW2_W_single (dd : ℕ) :
    ∀ a b : Fin 2, ¬(a = 0 ∧ b = 1) → (pW2 dd).W a b = 0 := by
  intro a b h
  exact if_neg h

lemma cellA : eulerCell 0 0 1015 (-65, -1, false) = (35, -1, true) := by
  norm_num [eulerCell, dt, Prod.ext_iff]

lemma cellB : eulerCell 0 0 15 (-65, -1, false) = (-65, -1, false) := by
  norm_num [eulerCell, dt, Prod.ext_iff]

/-- Everything a witness run needs to know about one neuron after one
`update()` call, extracted from the scalar Euler iteration, for a
neuron that receives no synaptic input (all weights into it are
zero). -/
lemma update_cell_facts {n dm : ℕ} (p : IzParams n) (s : IzState n dm)
    (I : Fin n → ℚ) (i : Fin n)
    (hX0 : ∀ slot, s.X slot i = 0) (hWi : ∀ f, p.W f i = 0)
    (q : ℚ × ℚ × Bool)
    (hq : eulerCellIter (p.a i) (p.b i) (I i) numSubsteps
        (preV p s i, preU p s i, false) = q) :
    (update p (setI s I)).2 i = q.2.2
    ∧ (update p (setI s I)).1.v i = (if q.2.2 = true then 30 else q.1)
    ∧ (update p (setI s I)).1.u i = q.2.1
    ∧ (update p (setI s I)).1.lastFired i = q.2.2
    ∧ (∀ slot, (update p (setI s I)).1.X slot i = 0) := by
  have hcell : cellOf (eulerStage p (setI s I) numSubsteps) i = q := by
    rw [cellOf_eulerStage]
    have htot : totalI (setI s I) i = I i := by
      have h1 : totalI (setI s I) i
          = I i + s.X (cursorSlot dm s.cursor) i := rfl
      rw [h1, hX0, add_zero]
    rw [htot]
    exact hq
  have hmask : firedMask p (setI s I) i = q.2.2 := by
    have h1 : firedMask p (setI s I) i
        = (cellOf (eulerStage p (setI s I) numSubsteps) i).2.2 := rfl
    rw [h1, hcell]
  refine ⟨hmask, ?_, ?_, hmask, ?_⟩
  · have h1 : (update p (setI s I)).1.v i
        = (if firedMask p (setI s I) i = true then 30
           else (cellOf (eulerStage p (setI s I) numSubsteps) i).1) := rfl
    rw [h1, hcell, hmask]
  · have h1 : (update p (setI s I)).1.u i
        = (cellOf (eulerStage p (setI s I) numSubsteps) i).2.1 := rfl
    rw [h1, hcell]
  · intro slot
    rw [update_X]
    by_cases hsl : slot.val = (setI s I).cursor % (dm + 1)
    · rw [if_pos hsl]
    · rw [if_neg hsl, scatterAll_col_zero p _ _ _ i hWi slot]
      exact hX0 slot

/-- On the witness drive, neuron 0 fires at step 0 and at no other of
the first three steps. -/
lemma wit2_facts (dd : ℕ) :
    runFired (pW2 dd) IsW2 (initState 2 1) 0 0 = true
    ∧ runFired (pW2 dd) IsW2 (initState 2 1) 1 0 = false
    ∧ runFired (pW2 dd) IsW2 (initState 2 1) 2 0 = false := by
  have hq0 : eulerCellIter 0 0 (IsW2 0 0) 10
      (preV (pW2 dd) (initState 2 1) 0, preU (pW2 dd) (initState 2 1) 0, false)
      = (35, -1, true) :=
    eulerCellIter_eventually_fixed 0 0 1015 (-65, -1, false) (35, -1, true)
      cellA rfl 10 (by norm_num)
  have f0 := update_cell_facts (pW2 dd) (initState 2 1) (IsW2 0) 0 (fun _ => rfl) (pW2_W_col0 dd) (35, -1, true) hq0
  have hf0 : runFired (pW2 dd) IsW2 (initState 2 1) 0 0 = true := f0.1
  have hLF1 : (update (pW2 dd) (setI (initState 2 1) (IsW2 0))).1.lastFired 0 = true :=
    f0.2.2.2.1
  have hu1 : (update (pW2 dd) (setI (initState 2 1) (IsW2 0))).1.u 0 = -1 := f0.2.2.1
  have hpreV1 : preV (pW2 dd) (update (pW2 dd) (setI (initState 2 1) (IsW2 0))).1 0 = -65 := by
    have h1 : preV (pW2 dd) (update (pW2 dd) (setI (initState 2 1) (IsW2 0))).1 0
        = if (update (pW2 dd) (setI (initState 2 1) (IsW2 0))).1.lastFired 0
          then (pW2 dd).c 0
          else (update (pW2 dd) (setI (initState 2 1) (IsW2 0))).1.v 0 := rfl
    rw [h1, hLF1, if_pos rfl]
    rfl
  have hpreU1 : preU (pW2 dd) (update (pW2 dd) (setI (initState 2 1) (IsW2 0))).1 0 = -1 := by
    have h1 : preU (pW2 dd) (update (pW2 dd) (setI (initState 2 1) (IsW2 0))).1 0
        = if (update (pW2 dd) (setI (initState 2 1) (IsW2 0))).1.lastFired 0
          then (update (pW2 dd) (setI (initState 2 1) (IsW2 0))).1.u 0 + (pW2 dd).d 0
          else (update (pW2 dd) (setI (initState 2 1) (IsW2 0))).1.u 0 := rfl
    rw [h1, hLF1, if_pos rfl, hu1, show (pW2 dd).d 0 = (0 : ℚ) from rfl]
    norm_num
  have hq1 : eulerCellIter 0 0 (IsW2 1 0) 10
      (preV (pW2 dd) (update (pW2 dd) (setI (initState 2 1) (IsW2 0))).1 0,
       preU (pW2 dd) (update (pW2 dd) (setI (initState 2 1) (IsW2 0))).1 0, false)
      = (-65, -1, false) := by
    rw [hpreV1, hpreU1]
    exact eulerCellIter_fix 0 0 15 (-65, -1, false) cellB 10
  have f1 := update_cell_facts (pW2 dd) (update (pW2 dd) (setI (initState 2 1) (IsW2 0))).1
      (IsW2 1) 0 f0.2.2.2.2 (pW2_W_col0 dd) (-65, -1, false) hq1
  have hf1 : runFired (pW2 dd) IsW2 (initState 2 1) 1 0 = false := f1.1
  have hLF2 : (update (pW2 dd)
      (setI (update (pW2 dd) (setI (initState 2 1) (IsW2 0))).1 (IsW2 1))).1.lastFired 0
      = false := f1.2.2.2.1
  have hv2 : (update (pW2 dd)
      (setI (update (pW2 dd) (setI (initState 2 1) (IsW2 0))).1 (IsW2 1))).1.v 0 = -65 := by
    have h := f1.2.1
    rwa [if_neg (by decide : ¬(((-65 : ℚ), (-1 : ℚ), false).2.2 = true))] at h
  have hu2 : (update (pW2 dd)
      (setI (update (pW2 dd) (setI (initState 2 1) (IsW2 0))).1 (IsW2 1))).1.u 0 = -1 :=
    f1.2.2.1
  have hpreV2 : preV (pW2 dd) (update (pW2 dd)
      (setI (update (pW2 dd) (setI (initState 2 1) (IsW2 0))).1 (IsW2 1))).1 0 = -65 := by
    have h1 : preV (pW2 dd) (update (pW2 dd)
        (setI (update (pW2 dd) (setI (initState 2 1) (IsW2 0))).1 (IsW2 1))).1 0
        = if (update (pW2 dd)
            (setI (update (pW2 dd) (setI (initState 2 1) (IsW2 0))).1 (IsW2 1))).1.lastFired 0
          then (pW2 dd).c 0
          else (update (pW2 dd)
            (setI (update (pW2 dd) (setI (initState 2 1) (IsW2 0))).1 (IsW2 1))).1.v 0 := rfl
    rw [h1, hLF2, if_neg (by decide : ¬(false = true))]
    exact hv2
  have hpreU2 : preU (pW2 dd) (update (pW2 dd)
      (setI (update (pW2 dd) (setI (initState 2 1) (IsW2 0))).1 (IsW2 1))).1 0 = -1 := by
    have h1 : preU (pW2 dd) (update (pW2 dd)
        (setI (update (pW2 dd) (setI (initState 2 1) (IsW2 0))).1 (IsW2 1))).1 0
        = if (update (pW2 dd)
            (setI (update (pW2 dd) (setI (initState 2 1) (IsW2 0))).1 (IsW2 1))).1.lastFired 0
          then (update (pW2 dd)
            (setI (update (pW2 dd) (setI (initState 2 1) (IsW2 0))).1 (IsW2 1))).1.u 0
            + (pW2 dd).d 0
          else (update (pW2 dd)
            (setI (update (pW2 dd) (setI (initState 2 1) (IsW2 0))).1 (IsW2 1))).1.u 0 := rfl
    rw [h1, hLF2, if_neg (by decide : ¬(false = true))]
    exact hu2
  have hq2 : eulerCellIter 0 0 (IsW2 2 0) 10
      (preV (pW2 dd) (update (pW2 dd)
        (setI (update (pW2 dd) (setI (initState 2 1) (IsW2 0))).1 (IsW2 1))).1 0,
       preU (pW2 dd) (update (pW2 dd)
        (setI (update (pW2 dd) (setI (initState 2 1) (IsW2 0))).1 (IsW2 1))).1 0, false)
      = (-65, -1, false) := by
    rw [hpreV2, hpreU2]
    exact eulerCellIter_fix 0 0 15 (-65, -1, false) cellB 10
  have f2 := update_cell_facts (pW2 dd) (update (pW2 dd)
      (setI (update (pW2 dd) (setI (initState 2 1) (IsW2 0))).1 (IsW2 1))).1
      (IsW2 2) 0 f1.2.2.2.2 (pW2_W_col0 dd) (-65, -1, false) hq2
  exact ⟨hf0, hf1, f2.1⟩

/-- On the witness drive, neuron 0 fires exactly at step 0 among the
first three steps. -/
lemma wit2_fire (dd : ℕ) : ∀ t, t < 3 →
    (runFired (pW2 dd) IsW2 (initState 2 1) t 0 = true ↔ t = 0) := by
  obtain ⟨h0, h1, h2⟩ := wit2_facts dd
  intro t ht
  interval_cases t
  · simp [h0]
  · simp [h1]
  · simp [h2]

/-- Witness for C1: in the concrete two-neuron network (`Dmax = 1`,
edge 0 → 1 of weight 1000 and delay 1), neuron 0 fires at step 0 and
step 1's total input current to neuron 1 is its external 15 plus the
delivered 1000. -/
theorem delayed_delivery_roundtrip_witness :
    stepInput (pW2 1) IsW2 (initState 2 1) 1 1 = 1015 := by
  have h := delayed_delivery_roundtrip (pW2 1) IsW2 (initState 2 1) 0 1 1000 1 0 3
    rfl (pW2_W_single 1) rfl (by norm_num) (by norm_num) (fun _ _ => rfl)
    (wit2_fire 1) (by norm_num) 1 (by norm_num)
  rw [h, show IsW2 1 1 = (15 : ℚ) from rfl, if_pos rfl]
  norm_num

/-- Witness for C4: with delay 3 and `Dmax = 1` the weight is delivered
at the mis-timed step `0 + 3 % 2 = 1`. -/
theorem out_of_range_delivery_semantics_witness :
    bufRead (runState (pW2 3) IsW2 (initState 2 1) 1) 1 = 1000 := by
  have h := (out_of_range_delivery_semantics (pW2 3) IsW2 (initState 2 1) 0 1 1000 3 0 3
    rfl (pW2_W_single 3) rfl (fun _ _ => rfl) (wit2_fire 3) (by norm_num)).1
    (by norm_num) 1 (by norm_num)
  rw [h, if_pos (by norm_num)]

/-- Counterexample to C3 as stated: with `Dmax = 1` the connection
0 → 1 has delay `3 ≥ Dmax + 1 = 2`, neuron 0 fires at step 0, and yet
neuron 1 does receive the weight 1000 - at the mis-timed step 1 - so
the delivery is not silently lost. -/
theorem overlong_delay_delivers_counterexample :
    runFired (pW2 3) IsW2 (initState 2 1) 0 0 = true
    ∧ (pW2 3).D 0 1 = 3
    ∧ bufRead (runState (pW2 3) IsW2 (initState 2 1) 1) 1 = 1000 := by
  refine ⟨(wit2_facts 3).1, rfl, ?_⟩
  have h := deliveryRead (pW2 3) IsW2 (initState 2 1) 0 1 1000 3 0 3 rfl
      (fun f hf => pW2_W_single 3 f 1 (fun hc => hf hc.1)) rfl (fun _ => rfl)
      (wit2_fire 3) (by norm_num) 1 (by norm_num)
  rw [h, if_pos ⟨by norm_num, by norm_num⟩]

/-- Witness for the amended C3: with delay `2 = Dmax + 1` (a positive
multiple of `Dmax + 1`) nothing is ever delivered to neuron 1. -/
theorem overlong_delay_multiple_never_delivers_witness :
    bufRead (runState (pW2 2) IsW2 (initState 2 1) 2) 1 = 0 :=
  overlong_delay_multiple_never_delivers (pW2 2) IsW2 (initState 2 1) 0 1 1000 2 0 3
    rfl (pW2_W_single 2) rfl (by norm_num) ⟨1, rfl⟩ (fun _ _ => rfl) (wit2_fire 2)
    (by norm_num) 2 (by norm_num)

/-- Claim C2 (confirmed).  Slot-clearing invariant: at the end of every
`update()` call the accumulator row at the cursor position consumed by
that call (the entry cursor taken mod `Dmax+1`) is all zeros, so the
synaptic input consumed at one step is never re-delivered `Dmax+1`
steps later. -/
theorem slot_cleared_after_update {n dm : ℕ} (p : IzParams n) (s : IzState n dm)
    (col : Fin n) :
    (update p s).1.X (cursorSlot dm s.cursor) col = 0 := by
  rw [update_X,
      if_pos (show (cursorSlot dm s.cursor).val = s.cursor % (dm + 1) from rfl)]

/-- Claim C5 (confirmed).  Fired-this-millisecond freeze: within one
`update()` call, once a neuron's membrane potential exceeds 30 at the
end of Euler sub-step `k₁ ≥ 1`, neither its membrane potential nor its
recovery variable is modified by any of the remaining sub-steps of the
same call. -/
theorem fired_freeze {n dm : ℕ} (p : IzParams n) (s : IzState n dm) (i : Fin n)
    (k₁ k₂ : ℕ) (hk1 : 1 ≤ k₁) (hk12 : k₁ ≤ k₂) (hk2 : k₂ ≤ numSubsteps)
    (hgt : 30 < (eulerStage p s k₁).1 i) :
    (eulerStage p s k₂).1 i = (eulerStage p s k₁).1 i
    ∧ (eulerStage p s k₂).2.1 i = (eulerStage p s k₁).2.1 i := by
  have hmask : (eulerStage p s k₁).2.2 i = true := by
    obtain ⟨k₀, rfl⟩ : ∃ k₀, k₁ = k₀ + 1 := ⟨k₁ - 1, by omega⟩
    have h1 : (eulerStage p s (k₀ + 1)).2.2 i
        = (cellOf (eulerStage p s (k₀ + 1)) i).2.2 := rfl
    rw [h1, eulerStage_succ_cell]
    exact eulerCell_fired_of_gt _ _ _ _ hgt
  have hfr := eulerStage_freeze p s i k₁ hmask k₂ hk12
  constructor
  · have e1 : (eulerStage p s k₂).1 i = (cellOf (eulerStage p s k₂) i).1 := rfl
    have e2 : (eulerStage p s k₁).1 i = (cellOf (eulerStage p s k₁) i).1 := rfl
    rw [e1, e2, hfr]
  · have e1 : (eulerStage p s k₂).2.1 i = (cellOf (eulerStage p s k₂) i).2.1 := rfl
    have e2 : (eulerStage p s k₁).2.1 i = (cellOf (eulerStage p s k₁) i).2.1 := rfl
    rw [e1, e2, hfr]

lemma wit2_stage1 : cellOf (eulerStage (pW2 1) (setI (initState 2 1) (IsW2 0)) 1) 0
    = (35, -1, true) := by
  rw [eulerStage_succ_cell]
  have htot : totalI (setI (initState 2 1) (IsW2 0)) 0 = 1015 := by
    have h1 : totalI (setI (initState 2 1) (IsW2 0)) 0 = (1015 : ℚ) + 0 := rfl
    rw [h1, add_zero]
  rw [htot]
  exact cellA

/-- Witness for C5: in the concrete network, neuron 0's potential is 35
after sub-step 1 (thus above 30), and sub-steps 2..10 leave both `v`
and `u` untouched. -/
theorem fired_freeze_witness :
    (eulerStage (pW2 1) (setI (initState 2 1) (IsW2 0)) 10).1 0
      = (eulerStage (pW2 1) (setI (initState 2 1) (IsW2 0)) 1).1 0
    ∧ (eulerStage (pW2 1) (setI (initState 2 1) (IsW2 0)) 10).2.1 0
      = (eulerStage (pW2 1) (setI (initState 2 1) (IsW2 0)) 1).2.1 0 := by
  apply fired_freeze (pW2 1) (setI (initState 2 1) (IsW2 0)) 0 1 10
    (by norm_num) (by norm_num) (by norm_num [numSubsteps])
  have h1 : (eulerStage (pW2 1) (setI (initState 2 1) (IsW2 0)) 1).1 0
      = (cellOf (eulerStage (pW2 1) (setI (initState 2 1) (IsW2 0)) 1) 0).1 := rfl
  rw [h1, wit2_stage1]
  norm_num

/-- Claim C7 (confirmed).  Firing-set postcondition: `update()` returns
exactly the indices of the neurons whose membrane potential exceeded 30
at the end of some Euler sub-step of that call; immediately after the
call each such neuron's membrane potential equals exactly 30, and
exactly these neurons form the new last-fired mask consumed by the next
call. -/
theorem update_firing_postcondition {n dm : ℕ} (p : IzParams n) (s : IzState n dm)
    (i : Fin n) :
    (i ∈ updateFiredIdx p s
      ↔ ∃ k, 1 ≤ k ∧ k ≤ numSubsteps ∧ 30 < (eulerStage p s k).1 i)
    ∧ (i ∈ updateFiredIdx p s → (update p s).1.v i = 30)
    ∧ ((update p s).1.lastFired i = true ↔ i ∈ updateFiredIdx p s) := by
  have hmem : i ∈ updateFiredIdx p s ↔ (update p s).2 i = true :=
    mem_firedList (update p s).2 i
  refine ⟨?_, ?_, ?_⟩
  · rw [hmem]
    exact eulerStage_mask_iff p s i numSubsteps
  · intro hi
    have hf : firedMask p s i = true := (hmem.mp hi : (update p s).2 i = true)
    have hv : (update p s).1.v i
        = (if firedMask p s i = true then 30 else (eulerStage p s numSubsteps).1 i) := rfl
    rw [hv, if_pos hf]
  · rw [hmem]
    exact Iff.rfl

/-- Witness for C7: neuron 0 of the concrete network is in the returned
firing list of the step-0 call and its membrane potential is clamped to
exactly 30 after the call. -/
theorem update_firing_postcondition_witness :
    (update (pW2 1) (setI (initState 2 1) (IsW2 0))).1.v 0 = 30
    ∧ (0 : Fin 2) ∈ updateFiredIdx (pW2 1) (setI (initState 2 1) (IsW2 0)) := by
  have hmem : (0 : Fin 2) ∈ updateFiredIdx (pW2 1) (setI (initState 2 1) (IsW2 0)) :=
    (mem_firedList (update (pW2 1) (setI (initState 2 1) (IsW2 0))).2 0).mpr
      ((wit2_facts 1).1)
  exact ⟨(update_firing_postcondition (pW2 1) (setI (initState 2 1) (IsW2 0)) 0).2.1 hmem,
    hmem⟩

/-- Claim C9 (confirmed).  Determinism: two engine instances constructed
with the same `N` and `Dmax`, configured identically and driven by the
same sequence of external currents, produce identical firing sets and
identical membrane-potential and recovery-variable trajectories at every
step. -/
theorem engine_determinism (n dm : ℕ) (p₁ p₂ : IzParams n)
    (I₁ I₂ : ℕ → Fin n → ℚ) (hp : p₁ = p₂) (hI : I₁ = I₂) (t : ℕ) :
    runState p₁ I₁ (initState n dm) t = runState p₂ I₂ (initState n dm) t
    ∧ runFired p₁ I₁ (initState n dm) t = runFired p₂ I₂ (initState n dm) t
    ∧ (runState p₁ I₁ (initState n dm) t).v = (runState p₂ I₂ (initState n dm) t).v
    ∧ (runState p₁ I₁ (initState n dm) t).u = (runState p₂ I₂ (initState n dm) t).u := by
  subst hp
  subst hI
  exact ⟨rfl, rfl, rfl, rfl⟩

/-- Witness for C9, instantiated on the concrete network for three
steps. -/
theorem engine_determinism_witness :
    runState (pW2 1) IsW2 (initState 2 1) 3 = runState (pW2 1) IsW2 (initState 2 1) 3
    ∧ runFired (pW2 1) IsW2 (initState 2 1) 3 = runFired (pW2 1) IsW2 (initState 2 1) 3
    ∧ (runState (pW2 1) IsW2 (initState 2 1) 3).v
      = (runState (pW2 1) IsW2 (initState 2 1) 3).v
    ∧ (runState (pW2 1) IsW2 (initState 2 1) 3).u
      = (runState (pW2 1) IsW2 (initState 2 1) 3).u :=
  engine_determinism 2 1 (pW2 1) (pW2 1) IsW2 IsW2 rfl rfl 3

/-- Claim C6 (amended).  Delayed reset: for every neuron that fired
during an `update()` call, the next `update()` call - whatever external
current it is given - begins by setting that neuron's membrane potential
to its reset parameter `c` and its recovery variable to its end-of-call
(pre-reset) value plus its reset increment `d`, before any Euler
integration runs.  (As stated the original claim is false: immediately
after the next call completes, the potential has been integrated away
from `c` - or clamped to 30 on an immediate re-fire - so it does not in
general equal `c`.) -/
theorem delayed_reset_at_next_call_start {n dm : ℕ} (p : IzParams n)
    (s : IzState n dm) (i : Fin n) (I : Fin n → ℚ)
    (hf : (update p s).2 i = true) :
    preV p (setI (update p s).1 I) i = p.c i
    ∧ preU p (setI (update p s).1 I) i = (update p s).1.u i + p.d i := by
  have hLF : (setI (update p s).1 I).lastFired i = true := hf
  constructor
  · have h1 : preV p (setI (update p s).1 I) i
        = if (setI (update p s).1 I).lastFired i then p.c i
          else (setI (update p s).1 I).v i := rfl
    rw [h1, hLF, if_pos rfl]
  · have h1 : preU p (setI (update p s).1 I) i
        = if (setI (update p s).1 I).lastFired i
          then (setI (update p s).1 I).u i + p.d i
          else (setI (update p s).1 I).u i := rfl
    rw [h1, hLF, if_pos rfl]
    rfl

/-- One-neuron counterexample network for C6: `Dmax = 0`, no
connections, reset increment `d = -1000` so that the neuron re-fires in
the first sub-step of the call after a firing. -/
def pR1 : IzParams 1 :=
  { a := fun _ => 0, b := fun _ => 0, c := fun _ => -65, d := fun _ => -1000,
    W := fun _ _ => 0, D := fun _ _ => 1 }

/-- Drive for the C6 counterexample: 1015 at step 0 (forces a fire),
nothing afterwards. -/
def IsR1 : ℕ → Fin 1 → ℚ := fun t _ => if t = 0 then 1015 else 0

lemma cellC : eulerCell 0 0 0 (-65, -1001, false) = (67/2, -1001, true) := by
  norm_num [eulerCell, dt, Prod.ext_iff]

/-- The C6 counterexample run: the neuron fires at step 0, and after
the next call its membrane potential is 30 (re-fire clamp), not the
reset value `c = -65`. -/
lemma pR1_facts :
    runFired pR1 IsR1 (initState 1 0) 0 0 = true
    ∧ (runState pR1 IsR1 (initState 1 0) 2).v 0 = 30 := by
  have hq0 : eulerCellIter (pR1.a 0) (pR1.b 0) (IsR1 0 0) numSubsteps
      (preV pR1 (initState 1 0) 0, preU pR1 (initState 1 0) 0, false)
      = (35, -1, true) :=
    eulerCellIter_eventually_fixed 0 0 1015 (-65, -1, false) (35, -1, true)
      cellA rfl 10 (by norm_num)
  have f0 := update_cell_facts pR1 (initState 1 0) (IsR1 0) 0 (fun _ => rfl)
      (fun _ => rfl) (35, -1, true) hq0
  have hLF1 : (update pR1 (setI (initState 1 0) (IsR1 0))).1.lastFired 0 = true :=
    f0.2.2.2.1
  have hu1 : (update pR1 (setI (initState 1 0) (IsR1 0))).1.u 0 = -1 := f0.2.2.1
  have hpreV1 : preV pR1 (update pR1 (setI (initState 1 0) (IsR1 0))).1 0 = -65 := by
    have h1 : preV pR1 (update pR1 (setI (initState 1 0) (IsR1 0))).1 0
        = if (update pR1 (setI (initState 1 0) (IsR1 0))).1.lastFired 0
          then pR1.c 0
          else (update pR1 (setI (initState 1 0) (IsR1 0))).1.v 0 := rfl
    rw [h1, hLF1, if_pos rfl]
    rfl
  have hpreU1 : preU pR1 (update pR1 (setI (initState 1 0) (IsR1 0))).1 0 = -1001 := by
    have h1 : preU pR1 (update pR1 (setI (initState 1 0) (IsR1 0))).1 0
        = if (update pR1 (setI (initState 1 0) (IsR1 0))).1.lastFired 0
          then (update pR1 (setI (initState 1 0) (IsR1 0))).1.u 0 + pR1.d 0
          else (update pR1 (setI (initState 1 0) (IsR1 0))).1.u 0 := rfl
    rw [h1, hLF1, if_pos rfl, hu1, show pR1.d 0 = (-1000 : ℚ) from rfl]
    norm_num
  have hq1 : eulerCellIter (pR1.a 0) (pR1.b 0) (IsR1 1 0) numSubsteps
      (preV pR1 (update pR1 (setI (initState 1 0) (IsR1 0))).1 0,
       preU pR1 (update pR1 (setI (initState 1 0) (IsR1 0))).1 0, false)
      = (67/2, -1001, true) := by
    rw [hpreV1, hpreU1]
    exact eulerCellIter_eventually_fixed 0 0 0 (-65, -1001, false) (67/2, -1001, true)
      cellC rfl 10 (by norm_num)
  have f1 := update_cell_facts pR1 (update pR1 (setI (initState 1 0) (IsR1 0))).1
      (IsR1 1) 0 f0.2.2.2.2 (fun _ => rfl) (67/2, -1001, true) hq1
  refine ⟨f0.1, ?_⟩
  have hv := f1.2.1
  rwa [if_pos (rfl : ((67/2 : ℚ), (-1001 : ℚ), true).2.2 = true)] at hv

/-- Counterexample to C6 as stated: the neuron of `pR1` fires at step 0,
gets no external input at step 1, and yet immediately after the step-1
`update()` call its membrane potential is 30, not its reset parameter
`c = -65` (the reset is applied at the start of the next call and then
integration - here an immediate re-fire and clamp - moves the potential
away from `c`). -/
theorem delayed_reset_post_call_counterexample :
    runFired pR1 IsR1 (initState 1 0) 0 0 = true
    ∧ IsR1 1 0 = 0
    ∧ (runState pR1 IsR1 (initState 1 0) 2).v 0 ≠ pR1.c 0 := by
  refine ⟨pR1_facts.1, rfl, ?_⟩
  rw [pR1_facts.2, show pR1.c 0 = (-65 : ℚ) from rfl]
  norm_num

/-- Witness for the amended C6: at the start of the step-1 call of the
`pR1` run, the fired neuron's potential is reset to `c` and its
recovery variable is its end-of-call value plus `d`. -/
theorem delayed_reset_at_next_call_start_witness :
    preV pR1 (setI (update pR1 (setI (initState 1 0) (IsR1 0))).1 (IsR1 1)) 0 = pR1.c 0
    ∧ preU pR1 (setI (update pR1 (setI (initState 1 0) (IsR1 0))).1 (IsR1 1)) 0
      = (update pR1 (setI (initState 1 0) (IsR1 0))).1.u 0 + pR1.d 0 :=
  delayed_reset_at_next_call_start pR1 (setI (initState 1 0) (IsR1 0)) 0 (IsR1 1)
    pR1_facts.1

/-- Claim C8 (confirmed).  `setDelays` raises exactly when the matrix
is not N-by-N, or its dtype is not an integer dtype, or some entry is
below 1 (for a well-formed integer array the source's `(D < 0.5).any()`
test is exactly "some entry < 1"); on success it stores the matrix
unchanged as `self._D`, with no comparison against `Dmax` anywhere, and
on an error nothing is stored (the `_D` assignment comes after all the
checks). -/
theorem setDelays_validation (s : IzNetworkObj) (Dm : NpMatrix)
    (hwf : Dm.dtypeIsInt = true → ∀ row ∈ Dm.data, ∀ x ∈ row, ∃ z : ℤ, x = (z : ℚ)) :
    ((∃ e, setDelays s Dm = Except.error e)
      ↔ (¬(Dm.data.length = s.N ∧ ∀ row ∈ Dm.data, row.length = s.N)
         ∨ Dm.dtypeIsInt = false
         ∨ ∃ row ∈ Dm.data, ∃ x ∈ row, x < 1))
    ∧ (∀ s2, setDelays s Dm = Except.ok s2 → s2 = { s with D := some Dm }) := by
  have hshape : (matShapeOk Dm s.N = true)
      ↔ (Dm.data.length = s.N ∧ ∀ row ∈ Dm.data, row.length = s.N) := by
    simp [matShapeOk, List.all_eq_true]
  by_cases h1 : matShapeOk Dm s.N = true
  · by_cases h2 : Dm.dtypeIsInt = false
    · have he : setDelays s Dm = Except.error "Delays must be integer numbers." := by
        unfold setDelays
        rw [if_neg (not_not_intro h1), if_pos h2]
      refine ⟨⟨fun _ => Or.inr (Or.inl h2), fun _ => ⟨_, he⟩⟩, ?_⟩
      intro s2 hok
      rw [he] at hok
      exact absurd hok (by simp)
    · have h2t : Dm.dtypeIsInt = true := by
        cases h : Dm.dtypeIsInt
        · exact absurd h h2
        · rfl
      by_cases h3 : Dm.data.any (fun row => row.any (fun x => decide (x < 1/2))) = true
      · have he : setDelays s Dm = Except.error "Delays must be strictly positive." := by
          unfold setDelays
          rw [if_neg (not_not_intro h1), if_neg h2, if_pos h3]
        have hex : ∃ row ∈ Dm.data, ∃ x ∈ row, x < 1 := by
          have h4 := h3
          simp only [List.any_eq_true, decide_eq_true_eq] at h4
          obtain ⟨row, hr, x, hx, hlt⟩ := h4
          exact ⟨row, hr, x, hx, by linarith⟩
        refine ⟨⟨fun _ => Or.inr (Or.inr hex), fun _ => ⟨_, he⟩⟩, ?_⟩
        intro s2 hok
        rw [he] at hok
        exact absurd hok (by simp)
      · have hok : setDelays s Dm = Except.ok { s with D := some Dm } := by
          unfold setDelays
          rw [if_neg (not_not_intro h1), if_neg h2, if_neg h3]
        constructor
        · constructor
          · rintro ⟨e, he⟩
            rw [hok] at he
            exact absurd he (by simp)
          · intro hr
            rcases hr with hr | hr | hr
            · exact absurd (hshape.mp h1) hr
            · rw [h2t] at hr
              exact absurd hr (by simp)
            · obtain ⟨row, hrow, x, hx, hlt⟩ := hr
              obtain ⟨z, rfl⟩ := hwf h2t row hrow x hx
              have hz : z < 1 := by exact_mod_cast hlt
              have hz2 : (z : ℚ) < 1/2 := by
                have hz0 : z ≤ 0 := by omega
                have hzq : (z : ℚ) ≤ 0 := by exact_mod_cast hz0
                linarith
              have hany : Dm.data.any (fun row => row.any (fun x => decide (x < 1/2)))
                  = true := by
                simp only [List.any_eq_true, decide_eq_true_eq]
                exact ⟨row, hrow, _, hx, hz2⟩
              exact absurd hany h3
        · intro s2 hok2
          rw [hok] at hok2
          injection hok2 with h
          exact h.symm
  · have he : setDelays s Dm = Except.error "Delay matrix must be N-by-N." := by
      unfold setDelays
      rw [if_pos h1]
    refine ⟨⟨fun _ => Or.inl (fun hc => h1 (hshape.mpr hc)), fun _ => ⟨_, he⟩⟩, ?_⟩
    intro s2 hok
    rw [he] at hok
    exact absurd hok (by simp)

/-- A concrete configured object (one neuron, `Dmax = 2`) for the C8
witness. -/
def objW : IzNetworkObj :=
  { DmaxP := 3, N := 1, X := List.replicate 3 (List.replicate 1 0),
    I := List.replicate 1 0, cursor := 0, lastFired := List.replicate 1 false,
    dtAttr := 1/10, v := List.replicate 1 (-65), u := List.replicate 1 (-1),
    D := none, W := none, abcd := none }

/-- A 1-by-1 integer delay matrix whose only entry is 0 (< 1). -/
def DmW : NpMatrix := { data := [[0]], dtypeIsInt := true }

/-- Witness for C8: `setDelays` on a 1-by-1 integer matrix with entry 0
raises. -/
theorem setDelays_validation_witness :
    ∃ e, setDelays objW DmW = Except.error e := by
  have hwf : DmW.dtypeIsInt = true →
      ∀ row ∈ DmW.data, ∀ x ∈ row, ∃ z : ℤ, x = (z : ℚ) := by
    intro _ row hr x hx
    simp only [DmW, List.mem_cons, List.not_mem_nil, or_false] at hr
    subst hr
    simp only [List.mem_cons, List.not_mem_nil, or_false] at hx
    subst hx
    exact ⟨0, by norm_num⟩
  exact (setDelays_validation objW DmW hwf).1.mpr
    (Or.inr (Or.inr ⟨[0], by simp [DmW], 0, by simp, by norm_num⟩))

/-- Counterexample to C10 as stated: constructing the engine with
`N = 0` succeeds - `__init__` performs no validation at all, so nothing
is rejected. -/
theorem init_zero_accepted_counterexample :
    ∃ s, IzNetworkNew 0 5 = Except.ok s := ⟨_, rfl⟩

/-- Claim C10 (amended).  The constructor never fails: for every `N`
(including `N = 0`) and every `Dmax` it returns a fully initialised
object with `self._N = N` and `self._Dmax = Dmax + 1`; `N = 0` yields a
degenerate empty network rather than an error. -/
theorem iznetwork_new_never_fails (N Dmax : ℕ) :
    ∃ s, IzNetworkNew N Dmax = Except.ok s ∧ s.N = N ∧ s.DmaxP = Dmax + 1 :=
  ⟨_, rfl, rfl, rfl⟩
